import Mathlib

/-!
Verification of the marc-rs MARC codec (src/src/record.rs, src/src/parser.rs,
src/src/writer.rs, src/src/encoding.rs) against its natural-language
specification.

Modelling conventions (shallow embedding of the Rust source):
* Rust `u8` bytes are `Nat` values below 256; byte buffers (`&[u8]`, `Vec<u8>`)
  are `List Nat`.
* Rust `String` / `&str` values are represented by the `List Nat` of their
  UTF-8 bytes (Rust strings are UTF-8 by construction); string equality is
  byte equality, and `&str` ordering is lexicographic byte order, both exactly
  as in Rust.
* Rust `char` values are represented by their Unicode codepoint as a `Nat`.
  The cast `c as u8` keeps the low 8 bits, i.e. `c % 256`; the cast
  `b as char` of a byte is the codepoint `b` itself.
* Integer casts `as u16` truncate modulo 2^16; `u8` arithmetic wraps
  modulo 2^8 (release-profile semantics of the source's unchecked
  `data[10] - b'0'` and `b'0' + n`).
* Fallible Rust functions returning `Result` become `Except`; a Rust panic
  (out-of-bounds index or slice) is modelled by the dedicated `PResult.panic`
  outcome of the parser, so that totality claims are expressible.
-/

namespace Marc

/-- A Rust byte buffer: list of byte values (each below 256 for well-formed
inputs; the definitions are total on all of `List Nat`). -/
abbrev Bytes := List Nat

/-- ASCII digit test, `(b as char).is_ascii_digit()` semantics used to state
claims about digit positions. -/
def isDigitByte (b : Nat) : Bool := 48 ≤ b && b ≤ 57

/-- Encoded length of a UTF-8 sequence starting with byte `b`, per the table
of Rust's `std::str::from_utf8` (0 marks bytes that cannot start a
sequence: continuation bytes 0x80-0xC1 and 0xF5-0xFF). -/
def utf8CharLen (b : Nat) : Nat :=
  if b < 0x80 then 1
  else if 0xC2 ≤ b && b ≤ 0xDF then 2
  else if 0xE0 ≤ b && b ≤ 0xEF then 3
  else if 0xF0 ≤ b && b ≤ 0xF4 then 4
  else 0

/-- Lower bound on the first continuation byte (excludes overlong forms and
surrogates): 0xA0 after 0xE0, 0x90 after 0xF0, otherwise 0x80. -/
def utf8FirstContLo (b : Nat) : Nat :=
  if b = 0xE0 then 0xA0 else if b = 0xF0 then 0x90 else 0x80

/-- Upper bound on the first continuation byte: 0x9F after 0xED (surrogate
exclusion), 0x8F after 0xF4 (U+10FFFF cap), otherwise 0xBF. -/
def utf8FirstContHi (b : Nat) : Nat :=
  if b = 0xED then 0x9F else if b = 0xF4 then 0x8F else 0xBF

/-- UTF-8 validity of a byte list, exactly the sequences accepted by Rust's
`std::str::from_utf8` (RFC 3629: no overlong forms, no surrogates, max
U+10FFFF): each lead byte determines the sequence length and the admissible
range of the first continuation byte; later continuation bytes are
0x80-0xBF. -/
def utf8Valid : Bytes → Bool
  | [] => true
  | b :: rest =>
    if b < 0x80 then utf8Valid rest
    else
      let n := utf8CharLen b
      if n < 2 then false
      else if rest.length < n - 1 then false
      else
        (utf8FirstContLo b ≤ rest.headD 0 && rest.headD 0 ≤ utf8FirstContHi b) &&
        ((rest.take (n - 1)).drop 1).all (fun c => 0x80 ≤ c && c ≤ 0xBF) &&
        utf8Valid (rest.drop (n - 1))
termination_by l => l.length
decreasing_by
  · simp only [List.length_cons]
    omega
  · have h1 : (rest.drop (utf8CharLen b - 1)).length ≤ rest.length :=
      by simp [List.length_drop]
    simp only [List.length_cons]
    omega

/-- The encoding selector (src/src/format.rs, `enum Encoding`). The claims
under verification only exercise the UTF-8 member; the other table-driven
members delegate to the external `encoding_rs` crate and are not modelled. -/
inductive Encoding where
  | utf8
deriving DecidableEq, Repr

/-- src/src/encoding.rs, `convert_to_utf8`. For `Encoding::Utf8` the external
`encoding_rs` decoder is, per the spec (section 4.1), the identity on valid
UTF-8 input and reports `had_errors` on invalid input, which the source maps
to `Err`. -/
def convert_to_utf8 (data : Bytes) (encoding : Encoding) : Except String Bytes :=
  match encoding with
  | .utf8 =>
    if utf8Valid data then .ok data
    else .error "Encoding conversion had errors"

/-- src/src/encoding.rs, `convert_from_encoding`. For `Encoding::Utf8` the
external `encoding_rs` encoder is the identity on the UTF-8 bytes of the
(always valid) Rust string and never reports errors. -/
def convert_from_encoding (text : Bytes) (encoding : Encoding) : Except String Bytes :=
  match encoding with
  | .utf8 => .ok text

/-- Decimal digits of `n`, most significant first, as ASCII bytes; the
digit expansion used by Rust's `format!` for unsigned integers. -/
def natDigits (n : Nat) : Bytes :=
  if h : n < 10 then [48 + n]
  else
    have : n / 10 < n := Nat.div_lt_self (by omega) (by omega)
    natDigits (n / 10) ++ [48 + n % 10]

/-- Left-pad a byte list with ASCII zeros up to width `w`; together with
`natDigits` this is Rust's zero-padded `format!` with a minimum width
(the output is wider than `w` when the number needs more digits). -/
def padZeros (w : Nat) (l : Bytes) : Bytes :=
  List.replicate (w - l.length) 48 ++ l

/-- `format!` with `:04` applied to a usize, as in the directory builder. -/
def format4 (n : Nat) : Bytes := padZeros 4 (natDigits n)

/-- `format!` with `:05` applied to an integer, as in `Leader::to_bytes` and
the directory builder. -/
def format5 (n : Nat) : Bytes := padZeros 5 (natDigits n)

/-- Value of a digit string, most significant first (accumulator fold used to
state correctness of the integer parsers). -/
def natOfDigits (l : Bytes) : Nat :=
  l.foldl (fun acc b => 10 * acc + (b - 48)) 0

/-- Digit-consuming loop of Rust's `FromStr` for unsigned integers: every
byte must be an ASCII digit and every intermediate value must stay below
`bound` (the type's cardinality), otherwise the parse errors. -/
def parseDigitsBounded (bound : Nat) : Nat → Bytes → Except String Nat
  | acc, [] => .ok acc
  | acc, b :: rest =>
    if isDigitByte b then
      if 10 * acc + (b - 48) < bound then
        parseDigitsBounded bound (10 * acc + (b - 48)) rest
      else .error "number too large"
    else .error "invalid digit"

/-- Rust `str::parse` for an unsigned integer type of cardinality `bound`,
on the UTF-8 bytes of the string: one optional leading plus sign, then a
nonempty run of ASCII digits, rejecting overflow. -/
def rustParseNat (bound : Nat) (bytes : Bytes) : Except String Nat :=
  match bytes with
  | [] => .error "cannot parse integer from empty string"
  | 43 :: rest =>
    match rest with
    | [] => .error "invalid digit"
    | _ => parseDigitsBounded bound 0 rest
  | _ => parseDigitsBounded bound 0 bytes

/-- src/src/record.rs, `parse_u16`: `str::from_utf8` followed by
`str::parse::<u16>`. -/
def parse_u16 (bytes : Bytes) : Except String Nat :=
  if utf8Valid bytes then rustParseNat 65536 bytes
  else .error "Invalid UTF-8"

/-- `str::from_utf8` followed by `str::parse::<usize>` as performed on the
4-byte length and 5-byte start slices of a directory entry
(src/src/parser.rs lines 100-110). -/
def parse_usize (bytes : Bytes) : Except String Nat :=
  if utf8Valid bytes then rustParseNat 18446744073709551616 bytes
  else .error "Invalid UTF-8"

/-- src/src/record.rs, `struct Leader`. `record_length` and
`base_address_of_data` are Rust `u16` (values below 2^16 for representable
leaders); the `char` fields are Unicode codepoints; the `u8` fields are
bytes. -/
@[ext]
structure Leader where
  record_length : Nat
  record_status : Nat
  record_type : Nat
  bibliographic_level : Nat
  type_of_control : Nat
  character_coding_scheme : Nat
  indicator_count : Nat
  subfield_code_count : Nat
  base_address_of_data : Nat
  encoding_level : Nat
  descriptive_cataloging_form : Nat
  multipart_resource_record_level : Nat
  length_of_length_of_field_portion : Nat
  length_of_starting_character_position_portion : Nat
  length_of_implementation_defined_portion : Nat
  undefined : Nat
deriving DecidableEq, Repr

/-- src/src/record.rs, `Leader::from_bytes` (lines 32-58). Positions 0-4 and
12-16 go through `parse_u16`; the single-character positions are raw byte to
`char` casts; positions 10, 11, 20, 21, 22 are `byte - b'0'` with wrapping
`u8` subtraction (modelled as `(b + 208) % 256`, the release-profile
semantics). -/
def Leader.from_bytes (data : Bytes) : Except String Leader :=
  if data.length ≠ 24 then .error "Leader must be 24 bytes"
  else
    match parse_u16 (data.take 5) with
    | .error e => .error e
    | .ok record_length =>
      match parse_u16 ((data.drop 12).take 5) with
      | .error e => .error e
      | .ok base_address =>
        .ok {
          record_length := record_length
          record_status := data.getD 5 0
          record_type := data.getD 6 0
          bibliographic_level := data.getD 7 0
          type_of_control := data.getD 8 0
          character_coding_scheme := data.getD 9 0
          indicator_count := (data.getD 10 0 + 208) % 256
          subfield_code_count := (data.getD 11 0 + 208) % 256
          base_address_of_data := base_address
          encoding_level := data.getD 17 0
          descriptive_cataloging_form := data.getD 18 0
          multipart_resource_record_level := data.getD 19 0
          length_of_length_of_field_portion := (data.getD 20 0 + 208) % 256
          length_of_starting_character_position_portion := (data.getD 21 0 + 208) % 256
          length_of_implementation_defined_portion := (data.getD 22 0 + 208) % 256
          undefined := data.getD 23 0
        }

/-- src/src/record.rs, `Leader::to_bytes` (lines 61-84): zero-pad positions
0 and 12 to five digits with `format!`; write the `char` positions as
`c as u8` (low 8 bits) and the digit positions as `b'0' + n` with wrapping
`u8` addition. -/
def Leader.to_bytes (l : Leader) : Bytes :=
  format5 l.record_length ++
  [l.record_status % 256,
   l.record_type % 256,
   l.bibliographic_level % 256,
   l.type_of_control % 256,
   l.character_coding_scheme % 256,
   (48 + l.indicator_count) % 256,
   (48 + l.subfield_code_count) % 256] ++
  format5 l.base_address_of_data ++
  [l.encoding_level % 256,
   l.descriptive_cataloging_form % 256,
   l.multipart_resource_record_level % 256,
   (48 + l.length_of_length_of_field_portion) % 256,
   (48 + l.length_of_starting_character_position_portion) % 256,
   (48 + l.length_of_implementation_defined_portion) % 256,
   l.undefined % 256]

/-- src/src/record.rs, `struct ControlField`: tag and value strings as their
UTF-8 bytes. -/
structure ControlField where
  tag : Bytes
  value : Bytes
deriving DecidableEq, Repr

/-- src/src/record.rs, `struct Subfield`: `code` is a `char` codepoint. -/
structure Subfield where
  code : Nat
  value : Bytes
deriving DecidableEq, Repr

/-- src/src/record.rs, `struct DataField`: indicators are `char`
codepoints. -/
structure DataField where
  tag : Bytes
  ind1 : Nat
  ind2 : Nat
  subfields : List Subfield
deriving DecidableEq, Repr

/-- src/src/record.rs, `struct Record`. -/
structure Record where
  leader : Leader
  control_fields : List ControlField
  data_fields : List DataField
deriving DecidableEq, Repr

/-- Lexicographic byte-order strict comparison of Rust `&str` / `&[u8]`
values, used by the parser's `tag < "010"` test. -/
def bytesLt : Bytes → Bytes → Bool
  | _, [] => false
  | [], _ :: _ => true
  | a :: as_, b :: bs => a < b || (a == b && bytesLt as_ bs)

/-- src/src/parser.rs, `enum ParseError`. The human-readable message payloads
of the Rust variants are abstracted away; only the variant is kept. -/
inductive ParseError where
  | invalidLeader
  | invalidRecordLength
  | invalidField
  | invalidEncoding
  | unexpectedEof
  | invalidXml
  | other
deriving DecidableEq, Repr

/-- Outcome of running a piece of Rust code that may return `Ok`, return
`Err`, or panic (out-of-bounds index / slice). `panic` aborts the whole
computation, like a Rust panic unwinding out of the library. -/
inductive PResult (α : Type) where
  | panic
  | error (e : ParseError)
  | ok (a : α)
deriving DecidableEq, Repr

/-- Sequencing of panic-aware computations. -/
def PResult.bind {α β : Type} : PResult α → (α → PResult β) → PResult β
  | .panic, _ => .panic
  | .error e, _ => .error e
  | .ok a, f => f a

/-- Subfield scanning loop of `parse_single_marc21_record`
(src/src/parser.rs lines 142-170). The Rust loop advances an index `i`
through `subfield_data`; it is modelled as recursion on the unscanned
suffix. On a 0x1F delimiter the next byte is the code (a trailing lone 0x1F
breaks out of the loop), then value bytes run until the next 0x1F or 0x1E;
any other byte is skipped. -/
def parse_subfields (subfield_data : Bytes) (encoding : Encoding) :
    PResult (List Subfield) :=
  match subfield_data with
  | [] => .ok []
  | b :: rest =>
    if b = 0x1F then
      match rest with
      | [] => .ok []
      | code :: rest2 =>
        let value_bytes := rest2.takeWhile (fun x => x != 0x1F && x != 0x1E)
        let rest3 := rest2.dropWhile (fun x => x != 0x1F && x != 0x1E)
        match convert_to_utf8 value_bytes encoding with
        | .error _ => .error .invalidEncoding
        | .ok value =>
          PResult.bind (parse_subfields rest3 encoding) fun sfs =>
            .ok ({ code := code, value := value } :: sfs)
    else
      parse_subfields rest encoding
termination_by subfield_data.length
decreasing_by
  · have h1 : (List.dropWhile (fun x => x != 31 && x != 30) rest2).length ≤
        rest2.length :=
      (List.dropWhile_sublist _).length_le
    simp only [List.length_cons]
    omega
  · simp only [List.length_cons]
    omega

/-- Directory-entry loop of `parse_single_marc21_record`
(src/src/parser.rs lines 94-181). The Rust loop advances `dir_offset` in
steps of 12 over the fixed `directory` slice; it is modelled as recursion on
the unread suffix of the directory. Each 12-byte entry is split into tag,
length and start; the designated field image is sliced out of the data area
and interpreted as a control field (`tag < "010"`) or a data field. Control
fields and data fields accumulate in two separate vectors, exactly as in the
source. Accessing `field_data[1]` when the image has a single byte is an
out-of-bounds panic. -/
def parse_directory (directory : Bytes) (data_area : Bytes) (encoding : Encoding) :
    PResult (List ControlField × List DataField) :=
  if h12 : directory.length < 12 then .ok ([], [])
  else
    let tag := directory.take 3
    if ¬ utf8Valid tag then .error .invalidField
    else
      match parse_usize ((directory.drop 3).take 4) with
      | .error _ => .error .invalidField
      | .ok length =>
        match parse_usize ((directory.drop 7).take 5) with
        | .error _ => .error .invalidField
        | .ok start =>
          if start + length > data_area.length then .error .invalidField
          else
            let field_data := (data_area.drop start).take length
            have hdec : (directory.drop 12).length < directory.length := by
              simp only [List.length_drop]; omega
            if bytesLt tag [48, 49, 48] then
              match convert_to_utf8 field_data encoding with
              | .error _ => .error .invalidEncoding
              | .ok value =>
                PResult.bind (parse_directory (directory.drop 12) data_area encoding)
                  fun res =>
                    .ok ({ tag := tag, value := value } :: res.1, res.2)
            else
              if field_data.isEmpty then
                parse_directory (directory.drop 12) data_area encoding
              else
                match field_data with
                | [_] => .panic
                | ind1 :: ind2 :: subfield_data =>
                  PResult.bind (parse_subfields subfield_data encoding) fun sfs =>
                    PResult.bind
                      (parse_directory (directory.drop 12) data_area encoding)
                      fun res =>
                        .ok (res.1,
                          { tag := tag, ind1 := ind1, ind2 := ind2,
                            subfields := sfs } :: res.2)
                | [] => .panic
termination_by directory.length

/-- src/src/parser.rs, `parse_single_marc21_record` (lines 78-188). `data` is
the record image of `record_length` bytes. A base address larger than the
image is `UnexpectedEof`; the slice `&data[24..base_address]` panics when the
base address is below 24. -/
def parse_single_marc21_record (data : Bytes) (leader : Leader)
    (encoding : Encoding) : PResult Record :=
  if data.length < leader.base_address_of_data then .error .unexpectedEof
  else
    let base_address := leader.base_address_of_data
    if base_address < 24 then .panic
    else
      let directory := (data.drop 24).take (base_address - 24)
      let data_area := data.drop base_address
      PResult.bind (parse_directory directory data_area encoding) fun res =>
        .ok { leader := leader, control_fields := res.1, data_fields := res.2 }

/-- Record loop of src/src/parser.rs, `parse_marc21_binary` (lines 43-75).
The Rust loop keeps an `offset` into the full buffer; it is modelled as
recursion on the remaining suffix `data[offset..]`. Fewer than 24 remaining
bytes end the loop; a leader whose record length is zero or exceeds the
remaining bytes is `InvalidRecordLength`; otherwise one record image is
consumed and parsed. -/
def parse_records_loop (remaining : Bytes) (encoding : Encoding) :
    PResult (List Record) :=
  if h24 : remaining.length < 24 then .ok []
  else
    match Leader.from_bytes (remaining.take 24) with
    | .error _ => .error .invalidLeader
    | .ok leader =>
      let record_length := leader.record_length
      if hLen : record_length = 0 ∨ record_length > remaining.length then
        .error .invalidRecordLength
      else
        have : (remaining.drop record_length).length < remaining.length := by
          simp only [List.length_drop]; omega
        PResult.bind
          (parse_single_marc21_record (remaining.take record_length) leader encoding)
          fun record =>
            PResult.bind (parse_records_loop (remaining.drop record_length) encoding)
              fun records => .ok (record :: records)
termination_by remaining.length

/-- src/src/parser.rs, `parse_marc21_binary`: the whole-buffer entry point. -/
def parse_marc21_binary (data : Bytes) (encoding : Encoding) :
    PResult (List Record) :=
  parse_records_loop data encoding

/-- src/src/writer.rs, `enum WriteError`. `invalidRecord` carries the tag
interpolated into the Rust message "Invalid tag length: ..."; the other
message payloads are abstracted away. -/
inductive WriteError where
  | ioError
  | invalidRecord (tag : Bytes)
  | invalidEncoding
  | otherError
deriving DecidableEq, Repr

/-- A remembered directory triple of `write_single_marc21_binary`:
`(tag, start_within_data_area, length_including_terminator)`, in the tuple
order the source pushes (src/src/writer.rs lines 92 and 114). -/
abbrev DirEntry := Bytes × Nat × Nat

/-- Subfield serialization inside the data-field loop of
`write_single_marc21_binary` (src/src/writer.rs lines 101-107): for each
subfield a 0x1F delimiter, the code byte (`char as u8`), then the encoded
value bytes. -/
def write_subfields (subfields : List Subfield) (encoding : Encoding) :
    Except WriteError Bytes :=
  match subfields with
  | [] => .ok []
  | sf :: rest =>
    match convert_from_encoding sf.value encoding with
    | .error _ => .error .invalidEncoding
    | .ok value_bytes =>
      match write_subfields rest encoding with
      | .error e => .error e
      | .ok rest_bytes => .ok (0x1F :: sf.code % 256 :: (value_bytes ++ rest_bytes))

/-- Control-field loop of `write_single_marc21_binary` (src/src/writer.rs
lines 85-93): append the encoded value and a 0x1E terminator to the data
area, remembering `(tag, start, length + 1)`. -/
def write_control_fields (fields : List ControlField) (encoding : Encoding)
    (data_area : Bytes) (entries : List DirEntry) :
    Except WriteError (Bytes × List DirEntry) :=
  match fields with
  | [] => .ok (data_area, entries)
  | f :: rest =>
    match convert_from_encoding f.value encoding with
    | .error _ => .error .invalidEncoding
    | .ok value_bytes =>
      write_control_fields rest encoding (data_area ++ value_bytes ++ [0x1E])
        (entries ++ [(f.tag, data_area.length, value_bytes.length + 1)])

/-- Data-field loop of `write_single_marc21_binary` (src/src/writer.rs lines
96-115): the field image is the two indicator bytes (`char as u8`), the
subfield stream, and a 0x1E terminator; remember
`(tag, start, image length)`. -/
def write_data_fields (fields : List DataField) (encoding : Encoding)
    (data_area : Bytes) (entries : List DirEntry) :
    Except WriteError (Bytes × List DirEntry) :=
  match fields with
  | [] => .ok (data_area, entries)
  | f :: rest =>
    match write_subfields f.subfields encoding with
    | .error e => .error e
    | .ok subfield_bytes =>
      let field_data := f.ind1 % 256 :: f.ind2 % 256 :: (subfield_bytes ++ [0x1E])
      write_data_fields rest encoding (data_area ++ field_data)
        (entries ++ [(f.tag, data_area.length, field_data.length)])

/-- Directory-building loop of `write_single_marc21_binary` (src/src/writer.rs
lines 120-131): each entry becomes the 3-byte tag followed by
`format!` of the length (width 4, zero-padded) and the start (width 5,
zero-padded); a tag whose byte length is not 3 aborts with `InvalidRecord`
naming that tag. No directory terminator is appended. -/
def build_directory (entries : List DirEntry) : Except WriteError Bytes :=
  match entries with
  | [] => .ok []
  | (tag, start, length) :: rest =>
    if tag.length ≠ 3 then .error (.invalidRecord tag)
    else
      match build_directory rest with
      | .error e => .error e
      | .ok rest_bytes => .ok (tag ++ format4 length ++ format5 start ++ rest_bytes)

/-- src/src/writer.rs, `write_single_marc21_binary` (lines 75-152), producing
the emitted bytes instead of writing them to a stream: encode control fields
then data fields into the data area, append the 0x1D record terminator, build
the directory, and emit the leader (with `base_address_of_data` and
`record_length` overwritten via `as u16` truncating casts), the directory and
the data area. -/
def write_single_marc21_binary (record : Record) (encoding : Encoding) :
    Except WriteError Bytes :=
  match write_control_fields record.control_fields encoding [] [] with
  | .error e => .error e
  | .ok (da1, es1) =>
    match write_data_fields record.data_fields encoding da1 es1 with
    | .error e => .error e
    | .ok (da2, es2) =>
      let data_area := da2 ++ [0x1D]
      match build_directory es2 with
      | .error e => .error e
      | .ok directory =>
        let base_address := 24 + directory.length
        let leader : Leader :=
          { record.leader with
            base_address_of_data := base_address % 65536
            record_length := (base_address + data_area.length) % 65536 }
        .ok (leader.to_bytes ++ directory ++ data_area)

/-- src/src/writer.rs, `write_marc21_binary` (lines 63-72): records are
serialized in order into one output stream. -/
def write_marc21_binary (records : List Record) (encoding : Encoding) :
    Except WriteError Bytes :=
  match records with
  | [] => .ok []
  | r :: rest =>
    match write_single_marc21_binary r encoding with
    | .error e => .error e
    | .ok bytes =>
      match write_marc21_binary rest encoding with
      | .error e => .error e
      | .ok rest_bytes => .ok (bytes ++ rest_bytes)

/-- End-of-`leader`-element handler of src/src/parser.rs, `parse_marc_xml`
(lines 351-360): `current_value` is the accumulated text of the leader
element (UTF-8 bytes, `String::len` is its byte length). When at least 24
bytes are present, the first 24 bytes are parsed as the leader and a parse
failure propagates as `InvalidLeader`; when fewer than 24 bytes are present
nothing happens and the record keeps its current leader. -/
def xml_leader_end (current_value : Bytes) (record : Record) :
    Except ParseError Record :=
  if 24 ≤ current_value.length then
    match Leader.from_bytes (current_value.take 24) with
    | .error _ => .error .invalidLeader
    | .ok l => .ok { record with leader := l }
  else .ok record

/-! Derived descriptions of the serializer's output, used to state and prove
the round-trip and self-description theorems. Each is a direct closed form
of what the corresponding writer loop emits. -/

/-- Closed form of the byte stream `write_subfields` produces under UTF-8. -/
def subfieldsBytes : List Subfield → Bytes
  | [] => []
  | sf :: rest => 0x1F :: sf.code % 256 :: (sf.value ++ subfieldsBytes rest)

/-- Closed form of one data field's image: indicators, subfield stream,
0x1E terminator. -/
def fieldImage (f : DataField) : Bytes :=
  f.ind1 % 256 :: f.ind2 % 256 :: (subfieldsBytes f.subfields ++ [0x1E])

/-- Closed form of the data area contributed by a list of data fields. -/
def dataFieldsBytes : List DataField → Bytes
  | [] => []
  | f :: rest => fieldImage f ++ dataFieldsBytes rest

/-- Closed form of the directory entries remembered for a list of data
fields laid out from offset `start`. -/
def dataFieldEntries (start : Nat) : List DataField → List DirEntry
  | [] => []
  | f :: rest =>
    (f.tag, start, (fieldImage f).length) ::
      dataFieldEntries (start + (fieldImage f).length) rest

/-- The 12 bytes of one directory entry: tag, 4-digit length, 5-digit
start. -/
def entryBytes (e : DirEntry) : Bytes :=
  e.1 ++ format4 e.2.2 ++ format5 e.2.1

/-- Closed form of the directory image. -/
def dirBytes : List DirEntry → Bytes
  | [] => []
  | e :: rest => entryBytes e ++ dirBytes rest

/-- Closed form of one control field's image: value bytes and the 0x1E
terminator. -/
def controlFieldsBytes : List ControlField → Bytes
  | [] => []
  | f :: rest => (f.value ++ [0x1E]) ++ controlFieldsBytes rest

/-- Closed form of the directory entries remembered for the control fields
laid out from offset `start`. -/
def controlFieldEntries (start : Nat) : List ControlField → List DirEntry
  | [] => []
  | f :: rest =>
    (f.tag, start, f.value.length + 1) ::
      controlFieldEntries (start + (f.value.length + 1)) rest

/-- The data-area bytes of a whole record (control fields first, then data
fields), before the record terminator. -/
def recordBytes (r : Record) : Bytes :=
  controlFieldsBytes r.control_fields ++ dataFieldsBytes r.data_fields

/-- All directory entries of a record, in the order the serializer records
them. -/
def recordEntries (r : Record) : List DirEntry :=
  controlFieldEntries 0 r.control_fields ++
    dataFieldEntries (controlFieldsBytes r.control_fields).length r.data_fields

/-- Base address the serializer computes: 24 plus the directory length. -/
def emitBase (r : Record) : Nat :=
  24 + (dirBytes (recordEntries r)).length

/-- The leader the serializer emits: the input leader with the computed base
address and record length stored through truncating `as u16` casts. -/
def emitLeader (r : Record) : Leader :=
  { r.leader with
    base_address_of_data := emitBase r % 65536
    record_length := (emitBase r + ((recordBytes r).length + 1)) % 65536 }

/-- The record the parser recovers from the serializer's output: the same
record with the recomputed leader length fields. -/
def emitRecord (r : Record) : Record :=
  { r with leader := emitLeader r }

/-- The full image the serializer emits. -/
def imageOf (r : Record) : Bytes :=
  (emitLeader r).to_bytes ++ dirBytes (recordEntries r) ++
    (recordBytes r ++ [0x1D])

/-- The concatenation of the images of a list of records, as
`write_marc21_binary` emits them. -/
def imagesOf : List Record → Bytes
  | [] => []
  | r :: rest => imageOf r ++ imagesOf rest

/-! Well-formedness predicates: the sub-domain of the Rust data types on
which the amended round-trip statements are proved. All are decidable so
concrete witnesses evaluate by `decide`. -/

/-- The leader's single-character positions are byte-range codepoints and
its digit positions byte-range values (any Rust leader read back from bytes
satisfies this; `record_length` and `base_address_of_data` are unconstrained
because the serializer overwrites them). -/
def Leader.CharsInRange (l : Leader) : Prop :=
  l.record_status < 256 ∧ l.record_type < 256 ∧ l.bibliographic_level < 256 ∧
  l.type_of_control < 256 ∧ l.character_coding_scheme < 256 ∧
  l.indicator_count < 256 ∧ l.subfield_code_count < 256 ∧
  l.encoding_level < 256 ∧ l.descriptive_cataloging_form < 256 ∧
  l.multipart_resource_record_level < 256 ∧
  l.length_of_length_of_field_portion < 256 ∧
  l.length_of_starting_character_position_portion < 256 ∧
  l.length_of_implementation_defined_portion < 256 ∧ l.undefined < 256

instance (l : Leader) : Decidable l.CharsInRange := by
  unfold Leader.CharsInRange; infer_instance

/-- A fully in-range leader: char positions in byte range and the two `u16`
numeric positions below 2^16 (every Rust `Leader` value whose `char` fields
are Latin-1 satisfies this). -/
def Leader.InRange (l : Leader) : Prop :=
  l.record_length < 65536 ∧ l.base_address_of_data < 65536 ∧ l.CharsInRange

instance (l : Leader) : Decidable l.InRange := by
  unfold Leader.InRange; infer_instance

/-- A subfield that round-trips: byte-range code, valid-UTF-8 value with no
reserved delimiter bytes. -/
def GoodSubfield (sf : Subfield) : Prop :=
  sf.code < 256 ∧ utf8Valid sf.value = true ∧
  ∀ b ∈ sf.value, b ≠ 0x1D ∧ b ≠ 0x1E ∧ b ≠ 0x1F

instance (sf : Subfield) : Decidable (GoodSubfield sf) := by
  unfold GoodSubfield; infer_instance

/-- A data field that round-trips: 3-character ASCII tag at or above "010",
byte-range indicators, good subfields, and a field image whose length fits
the 4-digit directory width. -/
def GoodDataField (f : DataField) : Prop :=
  f.tag.length = 3 ∧ (∀ b ∈ f.tag, b < 128) ∧
  bytesLt f.tag [48, 49, 48] = false ∧
  f.ind1 < 256 ∧ f.ind2 < 256 ∧
  (∀ sf ∈ f.subfields, GoodSubfield sf) ∧
  (fieldImage f).length < 10000

instance (f : DataField) : Decidable (GoodDataField f) := by
  unfold GoodDataField; infer_instance

/-- A record that round-trips bit-exactly apart from the recomputed leader
length fields: no control fields (their trailing 0x1E survives into the
value otherwise), good data fields, an in-range leader, and a total encoded
size below 2^16 so the `as u16` record length is exact. -/
def GoodRecord (r : Record) : Prop :=
  r.control_fields = [] ∧ (∀ f ∈ r.data_fields, GoodDataField f) ∧
  r.leader.CharsInRange ∧
  emitBase r + ((recordBytes r).length + 1) < 65536

instance (r : Record) : Decidable (GoodRecord r) := by
  unfold GoodRecord; infer_instance

/-! Concrete fixtures used by counterexamples and witnesses. Byte lists are
spelled out in decimal: 48-57 are the ASCII digits, 32 is space, 110 97 109
are the letters of a typical "nam" leader, 29 30 31 are the reserved
delimiters. -/

/-- A typical leader value: status and type bytes from a "nam" bibliographic
record, indicator and subfield-code counts 2, directory widths 4/5/0, and
(stale) zero record length and base address. -/
def leader0 : Leader :=
  { record_length := 0, record_status := 110, record_type := 97,
    bibliographic_level := 109, type_of_control := 32,
    character_coding_scheme := 32, indicator_count := 2,
    subfield_code_count := 2, base_address_of_data := 0,
    encoding_level := 32, descriptive_cataloging_form := 32,
    multipart_resource_record_level := 32,
    length_of_length_of_field_portion := 4,
    length_of_starting_character_position_portion := 5,
    length_of_implementation_defined_portion := 0, undefined := 32 }

/-- A record with one data field, tag "245", indicators '1' '0', subfields
with codes 'a' and 'b' and values "Hello " and "world" (spec scenario S1). -/
def record245 : Record :=
  { leader := leader0, control_fields := [],
    data_fields := [{ tag := [50, 52, 53], ind1 := 49, ind2 := 48,
                      subfields := [{ code := 97, value := [72, 101, 108, 108, 111, 32] },
                                    { code := 98, value := [119, 111, 114, 108, 100] }] }] }

/-- A record with one control field: tag "001", value "a". -/
def recordCtl : Record :=
  { leader := leader0,
    control_fields := [{ tag := [48, 48, 49], value := [97] }],
    data_fields := [] }

/-- A 40-byte binary record whose single directory entry designates the
control-field image "ab" followed by the 0x1E field terminator (tag "001",
length 0003, start 00000); leader "00040nam  22000365 4500"-shaped with the
base address 36. -/
def bufCtlImage : Bytes :=
  [48, 48, 48, 52, 48, 110, 97, 109, 32, 32, 50, 50, 48, 48, 48, 51, 54,
   32, 32, 32, 52, 53, 48, 32] ++
  [48, 48, 49, 48, 48, 48, 51, 48, 48, 48, 48, 48] ++
  [97, 98, 30, 29]

/-- The record that `parse_marc21_binary` produces from `bufCtlImage`: the
control-field value keeps the trailing 0x1E terminator byte. -/
def recCtlImage : Record :=
  { leader := { leader0 with record_length := 40, base_address_of_data := 36 },
    control_fields := [{ tag := [48, 48, 49], value := [97, 98, 30] }],
    data_fields := [] }

/-- A 37-byte binary record whose single directory entry designates a
data-field image of length exactly 1 (tag "245", length 0001, start 00000):
the parser reads the first indicator and then indexes `field_data[1]` out of
bounds. -/
def bufPanic : Bytes :=
  [48, 48, 48, 51, 55, 110, 97, 109, 32, 32, 50, 50, 48, 48, 48, 51, 54,
   32, 32, 32, 52, 53, 48, 32] ++
  [50, 52, 53, 48, 48, 48, 49, 48, 48, 48, 48, 48] ++
  [49]

/-- A 24-byte leader image with the non-digit byte 65 (letter A) in the
required digit position 10 (indicator count); all other positions are a
well-formed "00037nam" leader with base address 36. -/
def leaderBytesNonDigit10 : Bytes :=
  [48, 48, 48, 51, 55, 110, 97, 109, 32, 32, 65, 50, 48, 48, 48, 51, 54,
   32, 32, 32, 52, 53, 48, 32]

/-- A leader whose record-status `char` is U+0100 (codepoint 256), outside
the byte range: `to_bytes` truncates it to 0. Its numeric fields are
consistent and in range. -/
def leaderWideChar : Leader :=
  { leader0 with record_status := 256, record_length := 30,
                 base_address_of_data := 24 }

/-- A record whose control-field tag is the three-byte UTF-8 encoding of the
euro sign: one non-ASCII character, but exactly 3 bytes long. -/
def recordEuroTag : Record :=
  { leader := leader0,
    control_fields := [{ tag := [226, 130, 172], value := [97] }],
    data_fields := [] }

/-- A record with one control field whose value is 65498 bytes long, chosen
so that the total encoded image is exactly 65537 bytes and the `as u16` cast
of the record length wraps to 1. -/
def recordHuge : Record :=
  { leader := leader0,
    control_fields := [{ tag := [48, 48, 49], value := List.replicate 65498 97 }],
    data_fields := [] }

/-- The leader emitted for `recordHuge`: directory length 13 (the 5-digit
field length widens the entry), so the base address is 37, and the total
65537 wraps to record length 1. -/
def leaderHuge : Leader :=
  { leader0 with record_length := 1, base_address_of_data := 37 }

/-- A 50-byte buffer whose 24-byte leader claims record length 100 (with
base address 36): only 50 bytes remain, so the length check fails. -/
def bufShortClaim100 : Bytes :=
  [48, 48, 49, 48, 48, 110, 97, 109, 32, 32, 50, 50, 48, 48, 48, 51, 54,
   32, 32, 32, 52, 53, 48, 32] ++ List.replicate 26 48

/-- The leader claimed by `bufShortClaim100`. -/
def leader100 : Leader :=
  { leader0 with record_length := 100, base_address_of_data := 36 }

/-- A record with no fields at all. -/
def recordEmpty : Record :=
  { leader := leader0, control_fields := [], data_fields := [] }

/-- The image the serializer emits for `recordEmpty`: 24-byte leader with
record length 25 and base address 24, then the record terminator; no
directory terminator is written. -/
def emptyImage0 : Bytes :=
  [48, 48, 48, 50, 53, 110, 97, 109, 32, 32, 50, 50, 48, 48, 48, 50, 52,
   32, 32, 32, 52, 53, 48, 32, 29]

/-- The image the serializer emits for a record with leader `l` and no
fields. -/
def emptyRecordImage (l : Leader) : Bytes :=
  Leader.to_bytes { l with record_length := 25, base_address_of_data := 24 } ++ [0x1D]

/-- The image the serializer emits for `recordCtl` ("00039" leader, one
directory entry, data area "a" 0x1E 0x1D). -/
def imageCtl : Bytes :=
  [48, 48, 48, 51, 57, 110, 97, 109, 32, 32, 50, 50, 48, 48, 48, 51, 54,
   32, 32, 32, 52, 53, 48, 32] ++
  [48, 48, 49, 48, 48, 48, 50, 48, 48, 48, 48, 48] ++
  [97, 30, 29]

/-- The record the parser reads back from `imageCtl`: the control-field
value has gained the 0x1E terminator byte. -/
def recCtlRead : Record :=
  { leader := { leader0 with record_length := 39, base_address_of_data := 36 },
    control_fields := [{ tag := [48, 48, 49], value := [97, 30] }],
    data_fields := [] }

/-- The leader `Leader.from_bytes` recovers from `leaderWideChar.to_bytes`:
the record-status codepoint 256 was truncated to 0 by the `as u8` cast. -/
def leaderWideCharRead : Leader :=
  { leaderWideChar with record_status := 0 }

/-- A record with a two-byte control-field tag "00", rejected by the
serializer's tag-length check. -/
def recordBadTag : Record :=
  { leader := leader0,
    control_fields := [{ tag := [48, 48], value := [] }],
    data_fields := [] }

/-! Lemmas about the decimal digit expansion and the integer parsers. -/

theorem natDigits_length_pos (n : Nat) : 0 < (natDigits n).length := by
  rw [natDigits]
  split
  · simp
  · simp

theorem natDigits_lt (n : Nat) (h : n < 10) : natDigits n = [48 + n] := by
  rw [natDigits]
  exact dif_pos h

theorem natDigits_ge (n : Nat) (h : 10 ≤ n) :
    natDigits n = natDigits (n / 10) ++ [48 + n % 10] := by
  rw [natDigits]
  exact dif_neg (by omega)

theorem natDigits_65499 : natDigits 65499 = [54, 53, 52, 57, 57] := by
  have d1 : natDigits 6 = [54] := by
    rw [natDigits_lt 6 (by omega)]
  have d2 : natDigits 65 = [54, 53] := by
    rw [natDigits_ge 65 (by omega), show (65 : Nat) / 10 = 6 from rfl, d1]
    rfl
  have d3 : natDigits 654 = [54, 53, 52] := by
    rw [natDigits_ge 654 (by omega), show (654 : Nat) / 10 = 65 from rfl, d2]
    rfl
  have d4 : natDigits 6549 = [54, 53, 52, 57] := by
    rw [natDigits_ge 6549 (by omega), show (6549 : Nat) / 10 = 654 from rfl, d3]
    rfl
  rw [natDigits_ge 65499 (by omega), show (65499 : Nat) / 10 = 6549 from rfl, d4]
  rfl

theorem natDigits_digits (n : Nat) : ∀ b ∈ natDigits n, 48 ≤ b ∧ b ≤ 57 := by
  induction n using natDigits.induct with
  | case1 n h =>
    rw [natDigits]
    simp only [dif_pos h]
    intro b hb
    simp only [List.mem_singleton] at hb
    omega
  | case2 n h _ ih =>
    rw [natDigits]
    simp only [dif_neg h]
    intro b hb
    rcases List.mem_append.mp hb with h1 | h1
    · exact ih b h1
    · simp only [List.mem_singleton] at h1
      have := Nat.mod_lt n (y := 10) (by omega)
      omega

theorem natDigits_length_le (k : Nat) (n : Nat) (hk : 0 < k) (h : n < 10 ^ k) :
    (natDigits n).length ≤ k := by
  induction n using natDigits.induct generalizing k with
  | case1 n hn =>
    rw [natDigits]
    simp only [dif_pos hn]
    simpa using hk
  | case2 n hn _ ih =>
    rw [natDigits]
    simp only [dif_neg hn]
    have hk2 : 2 ≤ k := by
      by_contra hcon
      push_neg at hcon
      have hk1 : k = 1 := by omega
      subst hk1
      simp only [pow_one] at h
      omega
    have hdiv : n / 10 < 10 ^ (k - 1) := by
      have : 10 ^ k = 10 ^ (k - 1) * 10 := by
        rw [← pow_succ]
        congr 1
        omega
      omega
    have := ih (k - 1) (by omega) hdiv
    simp only [List.length_append, List.length_singleton]
    omega

/-- One fold step from an accumulator splits off the accumulator's
contribution. -/
theorem foldDigits_acc (l : Bytes) (acc : Nat) :
    l.foldl (fun a b => 10 * a + (b - 48)) acc =
      acc * 10 ^ l.length + natOfDigits l := by
  induction l generalizing acc with
  | nil => simp [natOfDigits]
  | cons b t ih =>
    simp only [List.foldl_cons, natOfDigits, List.length_cons]
    rw [ih (10 * acc + (b - 48)), ih (10 * 0 + (b - 48))]
    ring

theorem natOfDigits_append (l m : Bytes) :
    natOfDigits (l ++ m) = natOfDigits l * 10 ^ m.length + natOfDigits m := by
  unfold natOfDigits
  rw [List.foldl_append]
  exact foldDigits_acc m _

theorem natOfDigits_natDigits (n : Nat) : natOfDigits (natDigits n) = n := by
  induction n using natDigits.induct with
  | case1 n h =>
    rw [natDigits]
    simp only [dif_pos h]
    simp [natOfDigits]
  | case2 n h _ ih =>
    rw [natDigits]
    simp only [dif_neg h]
    rw [natOfDigits_append, ih]
    simp [natOfDigits]
    omega

theorem natOfDigits_replicate_zeros (k : Nat) (l : Bytes) :
    natOfDigits (List.replicate k 48 ++ l) = natOfDigits l := by
  induction k with
  | zero => simp
  | succ k ih =>
    rw [List.replicate_succ, List.cons_append]
    unfold natOfDigits at ih ⊢
    simp only [List.foldl_cons]
    simpa using ih

theorem natOfDigits_padZeros (w : Nat) (n : Nat) :
    natOfDigits (padZeros w (natDigits n)) = n := by
  rw [padZeros, natOfDigits_replicate_zeros, natOfDigits_natDigits]

theorem padZeros_length (w : Nat) (l : Bytes) (h : l.length ≤ w) :
    (padZeros w l).length = w := by
  simp [padZeros]
  omega

theorem padZeros_digits (w : Nat) (l : Bytes) (h : ∀ b ∈ l, 48 ≤ b ∧ b ≤ 57) :
    ∀ b ∈ padZeros w l, 48 ≤ b ∧ b ≤ 57 := by
  intro b hb
  rcases List.mem_append.mp hb with h1 | h1
  · have := List.eq_of_mem_replicate h1
    omega
  · exact h b h1

theorem format4_length (n : Nat) (h : n < 10000) : (format4 n).length = 4 :=
  padZeros_length 4 _ (natDigits_length_le 4 n (by omega) (by norm_num; omega))

theorem format5_length (n : Nat) (h : n < 100000) : (format5 n).length = 5 :=
  padZeros_length 5 _ (natDigits_length_le 5 n (by omega) (by norm_num; omega))

theorem format4_digits (n : Nat) : ∀ b ∈ format4 n, 48 ≤ b ∧ b ≤ 57 :=
  padZeros_digits 4 _ (natDigits_digits n)

theorem format5_digits (n : Nat) : ∀ b ∈ format5 n, 48 ≤ b ∧ b ≤ 57 :=
  padZeros_digits 5 _ (natDigits_digits n)

theorem utf8Valid_cons_ascii (b : Nat) (t : Bytes) (hb : b < 0x80) :
    utf8Valid (b :: t) = utf8Valid t := by
  rw [utf8Valid]
  rw [if_pos hb]

theorem utf8Valid_nil : utf8Valid [] = true := by
  rw [utf8Valid]

theorem utf8Valid_of_ascii (l : Bytes) (h : ∀ b ∈ l, b < 128) :
    utf8Valid l = true := by
  induction l with
  | nil => exact utf8Valid_nil
  | cons b t ih =>
    have hb : b < 0x80 := h b (List.mem_cons_self b t)
    have ht := ih fun x hx => h x (List.mem_cons_of_mem b hx)
    rw [utf8Valid_cons_ascii b t hb]
    exact ht

/-- The fold value never drops below its accumulator. -/
theorem foldDigits_le (l : Bytes) (acc : Nat) :
    acc ≤ l.foldl (fun a b => 10 * a + (b - 48)) acc := by
  induction l generalizing acc with
  | nil => simp
  | cons b t ih =>
    simp only [List.foldl_cons]
    calc acc ≤ 10 * acc + (b - 48) := by omega
    _ ≤ _ := ih _

theorem parseDigitsBounded_ok (bound : Nat) (l : Bytes) (acc : Nat)
    (hd : ∀ b ∈ l, isDigitByte b = true)
    (hb : l.foldl (fun a b => 10 * a + (b - 48)) acc < bound) :
    parseDigitsBounded bound acc l =
      .ok (l.foldl (fun a b => 10 * a + (b - 48)) acc) := by
  induction l generalizing acc with
  | nil => simp [parseDigitsBounded]
  | cons b t ih =>
    rw [parseDigitsBounded]
    have hdb : isDigitByte b = true := hd b (List.mem_cons_self b t)
    rw [if_pos hdb]
    simp only [List.foldl_cons] at hb ⊢
    have hstep : 10 * acc + (b - 48) < bound :=
      lt_of_le_of_lt (foldDigits_le t _) hb
    rw [if_pos hstep]
    exact ih _ (fun x hx => hd x (List.mem_cons_of_mem b hx)) hb

theorem rustParseNat_not_plus (bound : Nat) (b : Nat) (t : Bytes) (h : b ≠ 43) :
    rustParseNat bound (b :: t) = parseDigitsBounded bound 0 (b :: t) := by
  unfold rustParseNat
  split
  · simp_all
  · rename_i heq
    injection heq with h1 h2
    omega
  · rfl

/-- Parsing a zero-padded digit rendering recovers the value, provided it is
below the parser's bound. -/
theorem rustParseNat_padZeros (bound : Nat) (w : Nat) (n : Nat)
    (hn : n < bound) :
    rustParseNat bound (padZeros w (natDigits n)) = .ok n := by
  have hdig : ∀ b ∈ padZeros w (natDigits n), 48 ≤ b ∧ b ≤ 57 :=
    padZeros_digits w _ (natDigits_digits n)
  have hne : padZeros w (natDigits n) ≠ [] := by
    have h1 : 0 < (natDigits n).length := natDigits_length_pos n
    intro hcon
    have h2 : (padZeros w (natDigits n)).length = 0 := by rw [hcon]; rfl
    rw [padZeros, List.length_append, List.length_replicate] at h2
    omega
  obtain ⟨b, t, hbt⟩ := List.exists_cons_of_ne_nil hne
  have hb : 48 ≤ b ∧ b ≤ 57 := by
    apply hdig
    rw [hbt]
    exact List.mem_cons_self b t
  rw [hbt, rustParseNat_not_plus bound b t (by omega)]
  have hfold : (b :: t).foldl (fun a x => 10 * a + (x - 48)) 0 = n := by
    have := natOfDigits_padZeros w n
    rw [hbt] at this
    exact this
  rw [parseDigitsBounded_ok bound (b :: t) 0, hfold]
  · intro x hx
    have : 48 ≤ x ∧ x ≤ 57 := by
      apply hdig
      rw [hbt]
      exact hx
    simp [isDigitByte]
    omega
  · rw [hfold]
    exact hn

theorem parse_usize_format4 (n : Nat) (h : n < 10000) :
    parse_usize (format4 n) = .ok n := by
  rw [parse_usize, if_pos]
  · exact rustParseNat_padZeros _ 4 n (by omega)
  · exact utf8Valid_of_ascii _ fun b hb => by
      have := format4_digits n b hb
      omega

theorem parse_usize_format5 (n : Nat) (h : n < 100000) :
    parse_usize (format5 n) = .ok n := by
  rw [parse_usize, if_pos]
  · exact rustParseNat_padZeros _ 5 n (by omega)
  · exact utf8Valid_of_ascii _ fun b hb => by
      have := format5_digits n b hb
      omega

theorem parse_u16_format5 (n : Nat) (h : n < 65536) :
    parse_u16 (format5 n) = .ok n := by
  rw [parse_u16, if_pos]
  · exact rustParseNat_padZeros _ 5 n h
  · exact utf8Valid_of_ascii _ fun b hb => by
      have := format5_digits n b hb
      omega

/-! Lemmas about leader serialization. -/

theorem exists_cons_five (l : Bytes) (h : l.length = 5) :
    ∃ a b c d e, l = [a, b, c, d, e] := by
  match l, h with
  | [a, b, c, d, e], _ => exact ⟨a, b, c, d, e, rfl⟩

/-- Evaluation of `Leader.from_bytes` on a 24-byte input whose two numeric
slices parse. -/
theorem Leader.from_bytes_eq (data : Bytes) (h24 : data.length = 24)
    (rl ba : Nat)
    (hp1 : parse_u16 (data.take 5) = .ok rl)
    (hp2 : parse_u16 ((data.drop 12).take 5) = .ok ba) :
    Leader.from_bytes data = .ok
      { record_length := rl
        record_status := data.getD 5 0
        record_type := data.getD 6 0
        bibliographic_level := data.getD 7 0
        type_of_control := data.getD 8 0
        character_coding_scheme := data.getD 9 0
        indicator_count := (data.getD 10 0 + 208) % 256
        subfield_code_count := (data.getD 11 0 + 208) % 256
        base_address_of_data := ba
        encoding_level := data.getD 17 0
        descriptive_cataloging_form := data.getD 18 0
        multipart_resource_record_level := data.getD 19 0
        length_of_length_of_field_portion := (data.getD 20 0 + 208) % 256
        length_of_starting_character_position_portion := (data.getD 21 0 + 208) % 256
        length_of_implementation_defined_portion := (data.getD 22 0 + 208) % 256
        undefined := data.getD 23 0 } := by
  rw [Leader.from_bytes, if_neg (by simp [h24]), hp1, hp2]

/-- Round trip on the leader: serialization followed by parsing returns the
same leader, for leaders whose numeric fields fit their Rust integer types
and whose character fields lie in the byte range. -/
theorem Leader.from_bytes_to_bytes (l : Leader)
    (hr : l.record_length < 65536) (hb : l.base_address_of_data < 65536)
    (hc : l.CharsInRange) :
    Leader.from_bytes l.to_bytes = .ok l := by
  obtain ⟨h1, h2, h3, h4, h5, h6, h7, h8, h9, h10, h11, h12, h13, h14⟩ := hc
  obtain ⟨a0, a1, a2, a3, a4, hA⟩ :=
    exists_cons_five (format5 l.record_length) (format5_length _ (by omega))
  obtain ⟨c0, c1, c2, c3, c4, hC⟩ :=
    exists_cons_five (format5 l.base_address_of_data) (format5_length _ (by omega))
  have hTB : l.to_bytes =
      [a0, a1, a2, a3, a4,
       l.record_status % 256, l.record_type % 256,
       l.bibliographic_level % 256, l.type_of_control % 256,
       l.character_coding_scheme % 256,
       (48 + l.indicator_count) % 256, (48 + l.subfield_code_count) % 256,
       c0, c1, c2, c3, c4,
       l.encoding_level % 256, l.descriptive_cataloging_form % 256,
       l.multipart_resource_record_level % 256,
       (48 + l.length_of_length_of_field_portion) % 256,
       (48 + l.length_of_starting_character_position_portion) % 256,
       (48 + l.length_of_implementation_defined_portion) % 256,
       l.undefined % 256] := by
    rw [Leader.to_bytes, hA, hC]
    simp
  have h24 : l.to_bytes.length = 24 := by rw [hTB]; rfl
  have hp1 : parse_u16 (l.to_bytes.take 5) = .ok l.record_length := by
    rw [hTB]
    have ht : ([a0, a1, a2, a3, a4] : Bytes) = format5 l.record_length := hA.symm
    show parse_u16 [a0, a1, a2, a3, a4] = .ok l.record_length
    rw [ht]
    exact parse_u16_format5 _ hr
  have hp2 : parse_u16 ((l.to_bytes.drop 12).take 5) = .ok l.base_address_of_data := by
    rw [hTB]
    have ht : ([c0, c1, c2, c3, c4] : Bytes) = format5 l.base_address_of_data := hC.symm
    show parse_u16 [c0, c1, c2, c3, c4] = .ok l.base_address_of_data
    rw [ht]
    exact parse_u16_format5 _ hb
  rw [Leader.from_bytes_eq l.to_bytes h24 l.record_length l.base_address_of_data hp1 hp2]
  rw [hTB]
  simp only [Except.ok.injEq]
  ext <;> simp [List.getD] <;> omega

/-! Lemmas characterizing the binary serializer. -/

theorem write_subfields_eq (sfs : List Subfield) :
    write_subfields sfs .utf8 = .ok (subfieldsBytes sfs) := by
  induction sfs with
  | nil => rfl
  | cons sf rest ih =>
    rw [write_subfields]
    show (match write_subfields rest .utf8 with
      | Except.error e => Except.error e
      | Except.ok rest_bytes =>
        Except.ok (0x1F :: sf.code % 256 :: (sf.value ++ rest_bytes))) = _
    rw [ih]
    rfl

theorem write_control_fields_eq (fs : List ControlField) (da : Bytes)
    (es : List DirEntry) :
    write_control_fields fs .utf8 da es =
      .ok (da ++ controlFieldsBytes fs, es ++ controlFieldEntries da.length fs) := by
  induction fs generalizing da es with
  | nil => simp [write_control_fields, controlFieldsBytes, controlFieldEntries]
  | cons f rest ih =>
    rw [write_control_fields]
    show write_control_fields rest .utf8 (da ++ f.value ++ [0x1E])
      (es ++ [(f.tag, da.length, f.value.length + 1)]) = _
    rw [ih]
    simp [controlFieldsBytes, controlFieldEntries, List.append_assoc, Nat.add_assoc]

theorem write_data_fields_eq (fs : List DataField) (da : Bytes)
    (es : List DirEntry) :
    write_data_fields fs .utf8 da es =
      .ok (da ++ dataFieldsBytes fs, es ++ dataFieldEntries da.length fs) := by
  induction fs generalizing da es with
  | nil => simp [write_data_fields, dataFieldsBytes, dataFieldEntries]
  | cons f rest ih =>
    rw [write_data_fields, write_subfields_eq]
    dsimp only []
    rw [ih]
    simp [dataFieldsBytes, dataFieldEntries, fieldImage, List.append_assoc,
      Nat.add_assoc]

theorem build_directory_eq (es : List DirEntry)
    (h : ∀ e ∈ es, e.1.length = 3) :
    build_directory es = .ok (dirBytes es) := by
  induction es with
  | nil => rfl
  | cons e rest ih =>
    obtain ⟨tag, start, len⟩ := e
    rw [build_directory]
    rw [if_neg (by simpa using h (tag, start, len) (List.mem_cons_self _ _))]
    rw [ih fun x hx => h x (List.mem_cons_of_mem _ hx)]
    simp [dirBytes, entryBytes]

/-- Evaluation of the record serializer when every remembered tag has byte
length 3 (its only failure condition under UTF-8). -/
theorem write_single_marc21_binary_eq (r : Record)
    (h : ∀ e ∈ recordEntries r, e.1.length = 3) :
    write_single_marc21_binary r .utf8 = .ok (imageOf r) := by
  rw [write_single_marc21_binary, write_control_fields_eq]
  dsimp only []
  simp only [List.nil_append, List.length_nil]
  rw [write_data_fields_eq]
  dsimp only []
  rw [show controlFieldEntries 0 r.control_fields ++
      dataFieldEntries (controlFieldsBytes r.control_fields).length r.data_fields =
      recordEntries r from rfl]
  rw [build_directory_eq _ h]
  dsimp only []
  simp only [imageOf, emitLeader, emitBase, recordBytes, recordEntries,
    List.length_append, List.length_cons, List.length_nil, Except.ok.injEq]

/-! Lemmas inverting the binary parser on the serializer's output. -/

theorem takeWhile_clean_append (p : Nat → Bool) (v : Bytes)
    (hv : ∀ b ∈ v, p b = true) (x : Nat) (t : Bytes) (hx : p x = false) :
    (v ++ x :: t).takeWhile p = v := by
  induction v with
  | nil => simp [List.takeWhile, hx]
  | cons a w ih =>
    simp only [List.cons_append, List.takeWhile]
    rw [hv a (List.mem_cons_self a w)]
    simp [ih fun b hb => hv b (List.mem_cons_of_mem a hb)]

theorem dropWhile_clean_append (p : Nat → Bool) (v : Bytes)
    (hv : ∀ b ∈ v, p b = true) (x : Nat) (t : Bytes) (hx : p x = false) :
    (v ++ x :: t).dropWhile p = x :: t := by
  induction v with
  | nil => simp [List.dropWhile, hx]
  | cons a w ih =>
    simp only [List.cons_append, List.dropWhile]
    rw [hv a (List.mem_cons_self a w)]
    simpa using ih fun b hb => hv b (List.mem_cons_of_mem a hb)

/-- The stream after one encoded subfield starts with 0x1F (the next
subfield) or 0x1E (the field terminator). -/
theorem subfieldsBytes_term_split (sfs : List Subfield) :
    ∃ x t, subfieldsBytes sfs ++ [0x1E] = x :: t ∧
      ((fun c => c != 0x1F && c != 0x1E) x) = false := by
  cases sfs with
  | nil => exact ⟨0x1E, [], by simp [subfieldsBytes], by decide⟩
  | cons sf rest =>
    exact ⟨0x1F, sf.code % 256 :: (sf.value ++ (subfieldsBytes rest ++ [0x1E])),
      by simp [subfieldsBytes], by decide⟩

/-- The subfield scanner inverts the subfield serializer: scanning the
encoded subfield stream followed by the field terminator recovers the
subfields. -/
theorem parse_subfields_inverse (sfs : List Subfield)
    (h : ∀ sf ∈ sfs, GoodSubfield sf) :
    parse_subfields (subfieldsBytes sfs ++ [0x1E]) .utf8 = .ok sfs := by
  induction sfs with
  | nil =>
    show parse_subfields ([] ++ [0x1E]) .utf8 = .ok []
    rw [List.nil_append]
    rw [parse_subfields]
    norm_num
    rw [parse_subfields]
  | cons sf rest ih =>
    obtain ⟨hcode, hvalid, hclean⟩ := h sf (List.mem_cons_self sf rest)
    have hstream : subfieldsBytes (sf :: rest) ++ [0x1E] =
        0x1F :: sf.code % 256 :: (sf.value ++ (subfieldsBytes rest ++ [0x1E])) := by
      simp [subfieldsBytes]
    rw [hstream, parse_subfields]
    have hvp : ∀ b ∈ sf.value, (fun c => c != 0x1F && c != 0x1E) b = true := by
      intro b hb
      obtain ⟨-, h30, h31⟩ := hclean b hb
      simp
      omega
    obtain ⟨x, t, hxt, hx⟩ := subfieldsBytes_term_split rest
    rw [hxt]
    rw [takeWhile_clean_append _ sf.value hvp x t hx,
      dropWhile_clean_append _ sf.value hvp x t hx]
    rw [if_pos rfl]
    dsimp only []
    rw [show convert_to_utf8 sf.value .utf8 = .ok sf.value from by
      simp [convert_to_utf8, hvalid]]
    dsimp only []
    rw [← hxt, ih fun s hs => h s (List.mem_cons_of_mem sf hs)]
    dsimp only [PResult.bind]
    rw [Nat.mod_eq_of_lt hcode]

/-- The directory loop inverts the serializer: reading the directory built
for a list of good data fields laid out from offset `s0` in the data area
recovers exactly those fields (and no control fields). -/
theorem parse_directory_inverse (fs : List DataField) (s0 : Nat)
    (data_area : Bytes)
    (hgood : ∀ f ∈ fs, GoodDataField f)
    (hda : data_area.drop s0 = dataFieldsBytes fs ++ [0x1D])
    (hlen : s0 + (dataFieldsBytes fs).length + 1 = data_area.length)
    (hcap : data_area.length < 100000) :
    parse_directory (dirBytes (dataFieldEntries s0 fs)) data_area .utf8 =
      .ok ([], fs) := by
  induction fs generalizing s0 with
  | nil =>
    rw [parse_directory]
    rw [dif_pos (by simp [dataFieldEntries, dirBytes])]
  | cons f rest ih =>
    obtain ⟨htag3, htagA, htagGe, hi1, hi2, hsfs, hLcap⟩ :=
      hgood f (List.mem_cons_self f rest)
    have hdfb : dataFieldsBytes (f :: rest) = fieldImage f ++ dataFieldsBytes rest := rfl
    have hLlen : (fieldImage f).length + (dataFieldsBytes rest).length + 1 + s0 =
        data_area.length := by
      rw [← hlen, hdfb, List.length_append]
      omega
    have hs0 : s0 < 100000 := by omega
    have hD : dirBytes (dataFieldEntries s0 (f :: rest)) =
        f.tag ++ (format4 (fieldImage f).length ++
          (format5 s0 ++ dirBytes (dataFieldEntries (s0 + (fieldImage f).length) rest))) := by
      simp [dataFieldEntries, dirBytes, entryBytes, List.append_assoc]
    have hf4len : (format4 (fieldImage f).length).length = 4 := format4_length _ hLcap
    have hf5len : (format5 s0).length = 5 := format5_length _ hs0
    have h3 : (dirBytes (dataFieldEntries s0 (f :: rest))).take 3 = f.tag := by
      rw [hD]
      exact List.take_left' htag3
    have hd3 : (dirBytes (dataFieldEntries s0 (f :: rest))).drop 3 =
        format4 (fieldImage f).length ++
          (format5 s0 ++ dirBytes (dataFieldEntries (s0 + (fieldImage f).length) rest)) := by
      rw [hD]
      exact List.drop_left' htag3
    have h4 : ((dirBytes (dataFieldEntries s0 (f :: rest))).drop 3).take 4 =
        format4 (fieldImage f).length := by
      rw [hd3]
      exact List.take_left' hf4len
    have hd7 : (dirBytes (dataFieldEntries s0 (f :: rest))).drop 7 =
        format5 s0 ++ dirBytes (dataFieldEntries (s0 + (fieldImage f).length) rest) := by
      rw [show (7 : Nat) = 3 + 4 from rfl, ← List.drop_drop, hd3]
      exact List.drop_left' hf4len
    have h5 : ((dirBytes (dataFieldEntries s0 (f :: rest))).drop 7).take 5 =
        format5 s0 := by
      rw [hd7]
      exact List.take_left' hf5len
    have hd12 : (dirBytes (dataFieldEntries s0 (f :: rest))).drop 12 =
        dirBytes (dataFieldEntries (s0 + (fieldImage f).length) rest) := by
      rw [show (12 : Nat) = 7 + 5 from rfl, ← List.drop_drop, hd7]
      exact List.drop_left' hf5len
    have hDlen : (dirBytes (dataFieldEntries s0 (f :: rest))).length =
        12 + (dirBytes (dataFieldEntries (s0 + (fieldImage f).length) rest)).length := by
      rw [hD]
      simp [htag3, hf4len, hf5len]
      omega
    have hfd : (data_area.drop s0).take (fieldImage f).length = fieldImage f := by
      rw [hda, hdfb, List.append_assoc]
      exact List.take_left' rfl
    have hda2 : data_area.drop (s0 + (fieldImage f).length) =
        dataFieldsBytes rest ++ [0x1D] := by
      rw [← List.drop_drop, hda, hdfb, List.append_assoc]
      exact List.drop_left' rfl
    rw [parse_directory]
    rw [dif_neg (by omega)]
    dsimp only []
    rw [h3, h4, h5]
    rw [if_neg (by
      simp only [not_not]
      exact utf8Valid_of_ascii f.tag htagA)]
    rw [parse_usize_format4 _ hLcap]
    dsimp only []
    rw [parse_usize_format5 _ hs0]
    dsimp only []
    rw [if_neg (by omega)]
    rw [hfd, htagGe]
    simp only [Bool.false_eq_true, if_false]
    rw [show fieldImage f =
      f.ind1 % 256 :: f.ind2 % 256 :: (subfieldsBytes f.subfields ++ [0x1E]) from rfl]
    dsimp only [List.isEmpty]
    rw [parse_subfields_inverse f.subfields hsfs]
    dsimp only [PResult.bind]
    rw [hd12, ih (s0 + (fieldImage f).length)
      (fun x hx => hgood x (List.mem_cons_of_mem f hx)) hda2 (by omega)]
    dsimp only [PResult.bind]
    rw [Nat.mod_eq_of_lt hi1, Nat.mod_eq_of_lt hi2]
    simp only [Bool.false_eq_true, if_false]

theorem Leader.to_bytes_length (l : Leader) (h1 : l.record_length < 100000)
    (h2 : l.base_address_of_data < 100000) : l.to_bytes.length = 24 := by
  rw [Leader.to_bytes]
  simp [format5_length _ h1, format5_length _ h2]

theorem emitLeader_to_bytes_length (r : Record) :
    (emitLeader r).to_bytes.length = 24 :=
  Leader.to_bytes_length _
    (by simp only [emitLeader]; omega) (by simp only [emitLeader]; omega)

theorem imageOf_length (r : Record) :
    (imageOf r).length = emitBase r + ((recordBytes r).length + 1) := by
  rw [imageOf]
  simp [List.length_append, emitLeader_to_bytes_length, emitBase]
  omega

/-- The single-record parser inverts the serializer on a good record's
image, given the leader the serializer computed for it. -/
theorem parse_single_marc21_record_inverse (r : Record) (h : GoodRecord r) :
    parse_single_marc21_record (imageOf r) (emitLeader r) .utf8 =
      .ok (emitRecord r) := by
  obtain ⟨hc, hdf, hlead, hcap⟩ := h
  have hre : recordEntries r = dataFieldEntries 0 r.data_fields := by
    rw [recordEntries, hc]
    simp [controlFieldEntries, controlFieldsBytes]
  have hrb : recordBytes r = dataFieldsBytes r.data_fields := by
    rw [recordBytes, hc]
    simp [controlFieldsBytes]
  have hbase24 : 24 ≤ emitBase r := by rw [emitBase]; omega
  have hbase : emitBase r < 65536 := by omega
  have hbval : (emitLeader r).base_address_of_data = emitBase r := by
    simp only [emitLeader]
    exact Nat.mod_eq_of_lt hbase
  have hlen : (imageOf r).length = emitBase r + ((recordBytes r).length + 1) :=
    imageOf_length r
  have hdrop24 : (imageOf r).drop 24 =
      dirBytes (recordEntries r) ++ (recordBytes r ++ [0x1D]) := by
    rw [imageOf, List.append_assoc]
    exact List.drop_left' (emitLeader_to_bytes_length r)
  have hdir : ((imageOf r).drop 24).take (emitBase r - 24) =
      dirBytes (recordEntries r) := by
    rw [hdrop24]
    exact List.take_left' (by rw [emitBase]; omega)
  have hdataArea : (imageOf r).drop (emitBase r) = recordBytes r ++ [0x1D] := by
    rw [show emitBase r = 24 + (dirBytes (recordEntries r)).length from rfl,
      ← List.drop_drop, hdrop24]
    exact List.drop_left' rfl
  rw [parse_single_marc21_record]
  rw [if_neg (by rw [hbval]; omega)]
  rw [hbval]
  rw [if_neg (by omega)]
  dsimp only []
  rw [hdir, hdataArea, hre, hrb]
  rw [parse_directory_inverse r.data_fields 0 (dataFieldsBytes r.data_fields ++ [0x1D])
    hdf (by rw [List.drop_zero]) (by simp)
    (by
      simp only [List.length_append, List.length_cons, List.length_nil, ← hrb]
      omega)]
  dsimp only [PResult.bind]
  rw [emitRecord, hc]

/-- Tags remembered for data fields are the fields' tags. -/
theorem dataFieldEntries_tag_mem (fs : List DataField) (s : Nat) (e : DirEntry)
    (he : e ∈ dataFieldEntries s fs) : ∃ f ∈ fs, e.1 = f.tag := by
  induction fs generalizing s with
  | nil => simp [dataFieldEntries] at he
  | cons f rest ih =>
    rw [dataFieldEntries] at he
    rcases List.mem_cons.mp he with h1 | h1
    · exact ⟨f, List.mem_cons_self f rest, by rw [h1]⟩
    · obtain ⟨g, hg, hge⟩ := ih _ h1
      exact ⟨g, List.mem_cons_of_mem f hg, hge⟩

theorem goodRecord_entry_tags (r : Record) (h : GoodRecord r) :
    ∀ e ∈ recordEntries r, e.1.length = 3 := by
  obtain ⟨hc, hdf, -, -⟩ := h
  intro e he
  rw [recordEntries, hc] at he
  simp only [controlFieldEntries, controlFieldsBytes, List.nil_append,
    List.length_nil] at he
  obtain ⟨f, hf, hfe⟩ := dataFieldEntries_tag_mem r.data_fields 0 e he
  rw [hfe]
  exact (hdf f hf).1

/-- The many-record serializer emits the concatenated images of good
records. -/
theorem write_marc21_binary_images (rs : List Record)
    (h : ∀ r ∈ rs, GoodRecord r) :
    write_marc21_binary rs .utf8 = .ok (imagesOf rs) := by
  induction rs with
  | nil => rfl
  | cons r rest ih =>
    rw [write_marc21_binary,
      write_single_marc21_binary_eq r
        (goodRecord_entry_tags r (h r (List.mem_cons_self r rest)))]
    dsimp only []
    rw [ih fun x hx => h x (List.mem_cons_of_mem r hx)]
    rfl

/-- The record loop inverts the serializer on a concatenation of good-record
images. -/
theorem parse_records_loop_images (rs : List Record)
    (h : ∀ r ∈ rs, GoodRecord r) :
    parse_records_loop (imagesOf rs) .utf8 = .ok (rs.map emitRecord) := by
  induction rs with
  | nil =>
    rw [parse_records_loop, dif_pos (by simp [imagesOf])]
    rfl
  | cons r rest ih =>
    obtain ⟨hc, hdf, hlead, hcap⟩ := h r (List.mem_cons_self r rest)
    have hbase24 : 24 ≤ emitBase r := by rw [emitBase]; omega
    have htot : (imageOf r).length = emitBase r + ((recordBytes r).length + 1) :=
      imageOf_length r
    have hstream : imagesOf (r :: rest) = imageOf r ++ imagesOf rest := rfl
    rw [hstream, parse_records_loop]
    rw [dif_neg (by simp only [List.length_append]; omega)]
    have htake24 : (imageOf r ++ imagesOf rest).take 24 = (emitLeader r).to_bytes := by
      rw [List.take_append_of_le_length (by omega), imageOf, List.append_assoc]
      rw [List.take_append_of_le_length (by rw [emitLeader_to_bytes_length]),
        ← emitLeader_to_bytes_length r, List.take_length]
    rw [htake24]
    rw [Leader.from_bytes_to_bytes (emitLeader r)
      (by simp only [emitLeader]; omega) (by simp only [emitLeader]; omega) hlead]
    dsimp only []
    have hrl : (emitLeader r).record_length = (imageOf r).length := by
      rw [htot]
      simp only [emitLeader]
      exact Nat.mod_eq_of_lt hcap
    rw [hrl]
    rw [dif_neg (by
      simp only [List.length_append, not_or]
      constructor
      · omega
      · omega)]
    rw [List.take_left' rfl, List.drop_left' rfl]
    rw [parse_single_marc21_record_inverse r ⟨hc, hdf, hlead, hcap⟩]
    dsimp only [PResult.bind]
    rw [ih fun x hx => h x (List.mem_cons_of_mem r hx)]
    rfl

/-- The serializer reduces to the directory build on the record's entries:
everything before it (encoding, data-area layout) succeeds under UTF-8. -/
theorem write_single_as_build (r : Record) :
    write_single_marc21_binary r .utf8 =
      match build_directory (recordEntries r) with
      | .error e => .error e
      | .ok directory =>
        .ok (Leader.to_bytes
            { r.leader with
              base_address_of_data := (24 + directory.length) % 65536
              record_length :=
                ((24 + directory.length) + (recordBytes r ++ [0x1D]).length) % 65536 } ++
          directory ++ (recordBytes r ++ [0x1D])) := by
  rw [write_single_marc21_binary, write_control_fields_eq]
  dsimp only []
  simp only [List.nil_append, List.length_nil]
  rw [write_data_fields_eq]
  dsimp only []
  rw [show controlFieldEntries 0 r.control_fields ++
      dataFieldEntries (controlFieldsBytes r.control_fields).length r.data_fields =
      recordEntries r from rfl]
  rw [show controlFieldsBytes r.control_fields ++ dataFieldsBytes r.data_fields =
      recordBytes r from rfl]

/-- When no entry has a bad tag, the directory build succeeds. -/
theorem build_directory_find_none (es : List DirEntry)
    (h : es.find? (fun e => decide (e.1.length ≠ 3)) = none) :
    build_directory es = .ok (dirBytes es) := by
  apply build_directory_eq
  intro e he
  have := List.find?_eq_none.mp h e he
  simpa using this

/-- The directory build fails with the first bad tag. -/
theorem build_directory_find_some (es : List DirEntry) (e : DirEntry)
    (h : es.find? (fun e => decide (e.1.length ≠ 3)) = some e) :
    build_directory es = .error (.invalidRecord e.1) := by
  induction es with
  | nil => simp [List.find?] at h
  | cons a rest ih =>
    rw [List.find?] at h
    by_cases ha : a.1.length = 3
    · rw [show (decide (a.1.length ≠ 3)) = false by simp [ha]] at h
      obtain ⟨tag, start, len⟩ := a
      rw [build_directory, if_neg (by simpa using ha)]
      rw [ih h]
    · rw [show (decide (a.1.length ≠ 3)) = true by simp [ha]] at h
      simp only [Option.some.injEq] at h
      obtain ⟨tag, start, len⟩ := a
      rw [build_directory, if_pos (by simpa using ha)]
      rw [← h]

/-! The claim theorems. -/

/-- C10: the claim states that `parse_marc21_binary` is total (returns `Ok`
or a `ParseError`, never an out-of-range index), in particular on a
directory entry designating a data-field image of length exactly 1. The
code is not: on `bufPanic` (a 37-byte record whose directory entry gives the
data field "245" the 1-byte image "1"), `parse_single_marc21_record` reads
`field_data[0]` and then indexes `field_data[1]` out of bounds
(src/src/parser.rs line 139), a Rust panic. The same function also panics
via the slice `&data[24..base_address]` when the base address is below 24
(line 88). -/
theorem claim_C10_parser_panics :
    parse_marc21_binary bufPanic .utf8 = .panic := by
  simp [parse_marc21_binary, parse_records_loop, parse_single_marc21_record,
    parse_directory, parse_subfields, Leader.from_bytes, parse_u16, parse_usize,
    utf8Valid, rustParseNat, parseDigitsBounded, isDigitByte, bufPanic,
    convert_to_utf8, bytesLt, PResult.bind, utf8CharLen, utf8FirstContLo,
    utf8FirstContHi]

/-- C2: the claim states that the trailing 0x1E of a control field's image
is stripped before decoding. The code does not strip it: parsing
`bufCtlImage`, whose directory entry designates the image "ab" 0x1E for tag
"001", stores the control-field value "ab\x1E" — the decoding of all three
image bytes, terminator included (src/src/parser.rs lines 121-130 pass
`field_data` to `convert_to_utf8` whole). -/
theorem claim_C2_terminator_not_stripped :
    parse_marc21_binary bufCtlImage .utf8 = .ok [recCtlImage] ∧
    recCtlImage.control_fields =
      [{ tag := [48, 48, 49], value := [97, 98, 0x1E] }] := by
  constructor
  · simp [parse_marc21_binary, parse_records_loop, parse_single_marc21_record,
      parse_directory, parse_subfields, Leader.from_bytes, parse_u16, parse_usize,
      utf8Valid, rustParseNat, parseDigitsBounded, isDigitByte, bufCtlImage,
      convert_to_utf8, bytesLt, PResult.bind, utf8CharLen, utf8FirstContLo,
      utf8FirstContHi, recCtlImage, leader0]
  · rfl

/-- C6: the record loop of the binary parser raises `InvalidRecordLength`
whenever a parsed leader's record length is zero or exceeds the bytes
remaining from the current offset (the loop works on the suffix
`data[offset..]`), and when fewer than 24 bytes remain it stops without
error, returning the records parsed so far (the loop returns its
accumulator, here the empty continuation). -/
theorem claim_C6_record_length_check :
    (∀ (data : Bytes) (encoding : Encoding),
      parse_marc21_binary data encoding = parse_records_loop data encoding) ∧
    (∀ (remaining : Bytes) (encoding : Encoding), remaining.length < 24 →
      parse_records_loop remaining encoding = .ok []) ∧
    (∀ (remaining : Bytes) (encoding : Encoding) (leader : Leader),
      24 ≤ remaining.length →
      Leader.from_bytes (remaining.take 24) = .ok leader →
      (leader.record_length = 0 ∨ remaining.length < leader.record_length) →
      parse_records_loop remaining encoding = .error .invalidRecordLength) := by
  refine ⟨fun data encoding => rfl, fun remaining encoding h => ?_, ?_⟩
  · rw [parse_records_loop, dif_pos h]
  · intro remaining encoding leader h24 hfb hbad
    rw [parse_records_loop, dif_neg (by omega), hfb]
    dsimp only []
    rw [dif_pos (by omega)]

/-- Witness for C6: a 3-byte buffer yields zero records without error, and
the 50-byte buffer whose leader claims record length 100 raises
`InvalidRecordLength`. -/
theorem claim_C6_witness :
    parse_records_loop [48, 48, 48] .utf8 = .ok [] ∧
    parse_records_loop bufShortClaim100 .utf8 = .error .invalidRecordLength := by
  constructor
  · exact claim_C6_record_length_check.2.1 [48, 48, 48] .utf8 (by simp)
  · refine claim_C6_record_length_check.2.2 bufShortClaim100 .utf8 leader100
      (by simp [bufShortClaim100]) ?_ ?_
    · simp [bufShortClaim100, Leader.from_bytes, parse_u16, utf8Valid,
        rustParseNat, parseDigitsBounded, isDigitByte, leader100, leader0,
        utf8CharLen, utf8FirstContLo, utf8FirstContHi]
    · right
      simp [bufShortClaim100, leader100, leader0]

/-- C1 counterexample: the round trip `parse (write rs) = rs` fails as
stated. For the record with the single control field ("001", "a") and a
stale leader, serializing and re-parsing returns a record whose control
value has gained the 0x1E terminator byte and whose leader length fields
were recomputed — not the original record. -/
theorem claim_C1_counterexample :
    write_marc21_binary [recordCtl] .utf8 = .ok imageCtl ∧
    parse_marc21_binary imageCtl .utf8 = .ok [recCtlRead] ∧
    [recCtlRead] ≠ [recordCtl] := by
  refine ⟨?_, ?_, by decide⟩
  · simp [write_marc21_binary, write_single_marc21_binary, write_control_fields,
      write_data_fields, write_subfields, build_directory, convert_from_encoding,
      recordCtl, leader0, imageCtl, Leader.to_bytes, format4, format5, padZeros,
      natDigits]
  · simp [parse_marc21_binary, parse_records_loop, parse_single_marc21_record,
      parse_directory, parse_subfields, Leader.from_bytes, parse_u16, parse_usize,
      utf8Valid, rustParseNat, parseDigitsBounded, isDigitByte, imageCtl,
      convert_to_utf8, bytesLt, PResult.bind, utf8CharLen, utf8FirstContLo,
      utf8FirstContHi, recCtlRead, leader0]

/-- C1 amended: for records with no control fields, 3-character ASCII data
tags at or above "010", byte-range indicators and subfield codes, valid
UTF-8 values free of the reserved bytes 0x1D/0x1E/0x1F, field images below
10000 bytes and a total image below 65536 bytes, decoding the serializer's
output returns the original records with only the leader's record length
and base address replaced by the recomputed values. -/
theorem claim_C1_binary_roundtrip (rs : List Record)
    (h : ∀ r ∈ rs, GoodRecord r) :
    ∃ out, write_marc21_binary rs .utf8 = .ok out ∧
      parse_marc21_binary out .utf8 = .ok (rs.map emitRecord) :=
  ⟨imagesOf rs, write_marc21_binary_images rs h,
    parse_records_loop_images rs h⟩

/-- Witness for C1: the round trip on the S1-style record with data field
"245". -/
theorem claim_C1_witness :
    (∀ r ∈ [record245], GoodRecord r) ∧
    (∃ out, write_marc21_binary [record245] .utf8 = .ok out ∧
      parse_marc21_binary out .utf8 = .ok ([record245].map emitRecord)) := by
  have hgood : ∀ r ∈ [record245], GoodRecord r := by
    intro r hr
    simp only [List.mem_singleton] at hr
    subst hr
    refine ⟨rfl, ?_, by decide, ?_⟩
    · intro f hf
      simp only [record245, List.mem_singleton] at hf
      subst hf
      refine ⟨rfl, by decide, by decide, by decide, by decide, ?_, ?_⟩
      · intro sf hsf
        have hcases : sf = ⟨97, [72, 101, 108, 108, 111, 32]⟩ ∨
            sf = ⟨98, [119, 111, 114, 108, 100]⟩ := by simpa using hsf
        rcases hcases with rfl | rfl <;>
          exact ⟨by decide, utf8Valid_of_ascii _ (by decide), by decide⟩
      · simp [fieldImage, subfieldsBytes]
    · simp [emitBase, recordEntries, recordBytes, record245, controlFieldsBytes,
        controlFieldEntries, dataFieldEntries, dataFieldsBytes, dirBytes,
        entryBytes, fieldImage, subfieldsBytes, format4, format5, padZeros,
        natDigits, leader0]
  exact ⟨hgood, claim_C1_binary_roundtrip [record245] hgood⟩

/-- C3 counterexample: a record with no fields does not encode to a 26-byte
image; the serializer writes no directory terminator, so the image is 25
bytes ("00025" leader, base address 24, record terminator). -/
theorem claim_C3_counterexample :
    write_single_marc21_binary recordEmpty .utf8 = .ok emptyImage0 ∧
    emptyImage0.length = 25 ∧ emptyImage0.length ≠ 26 := by
  refine ⟨?_, by decide, by decide⟩
  simp [write_single_marc21_binary, write_control_fields, write_data_fields,
    build_directory, recordEmpty, leader0, emptyImage0, Leader.to_bytes,
    format5, padZeros, natDigits]

/-- C3 amended: the serializer appends no directory terminator. A record
with no control fields and no data fields encodes, for every leader, to the
25-byte image leader-plus-record-terminator, with record length 25 and base
address 24 in the emitted leader. -/
theorem claim_C3_empty_record_image (l : Leader) :
    write_single_marc21_binary ⟨l, [], []⟩ .utf8 = .ok (emptyRecordImage l) ∧
    (emptyRecordImage l).length = 25 ∧
    (emptyRecordImage l).take 5 = [48, 48, 48, 50, 53] ∧
    ((emptyRecordImage l).drop 12).take 5 = [48, 48, 48, 50, 52] := by
  have himg : imageOf ⟨l, [], []⟩ =
      emptyRecordImage l := by
    simp [imageOf, emitLeader, emitBase, recordEntries, recordBytes,
      controlFieldsBytes, controlFieldEntries, dataFieldsBytes,
      dataFieldEntries, dirBytes, emptyRecordImage]
  have htb : Leader.to_bytes
      { l with record_length := 25, base_address_of_data := 24 } =
      [48, 48, 48, 50, 53,
       l.record_status % 256, l.record_type % 256,
       l.bibliographic_level % 256, l.type_of_control % 256,
       l.character_coding_scheme % 256,
       (48 + l.indicator_count) % 256, (48 + l.subfield_code_count) % 256,
       48, 48, 48, 50, 52,
       l.encoding_level % 256, l.descriptive_cataloging_form % 256,
       l.multipart_resource_record_level % 256,
       (48 + l.length_of_length_of_field_portion) % 256,
       (48 + l.length_of_starting_character_position_portion) % 256,
       (48 + l.length_of_implementation_defined_portion) % 256,
       l.undefined % 256] := by
    simp [Leader.to_bytes, format5, padZeros, natDigits]
  refine ⟨?_, ?_, ?_, ?_⟩
  · rw [← himg]
    exact write_single_marc21_binary_eq _ (by
      intro e he
      simp [recordEntries, controlFieldEntries, controlFieldsBytes,
        dataFieldEntries] at he)
  · rw [emptyRecordImage, htb]
    rfl
  · rw [emptyRecordImage, htb]
    rfl
  · rw [emptyRecordImage, htb]
    rfl

/-- C7 counterexample: the leader round trip fails as stated for a leader
whose record-status character is U+0100 (codepoint 256): `to_bytes`
truncates it with an `as u8` cast, and `from_bytes` reads back the NUL
character. -/
theorem claim_C7_counterexample :
    leaderWideChar.record_length < 100000 ∧
    leaderWideChar.base_address_of_data < 100000 ∧
    Leader.from_bytes leaderWideChar.to_bytes = .ok leaderWideCharRead ∧
    leaderWideCharRead ≠ leaderWideChar := by
  refine ⟨by decide, by decide, ?_, by decide⟩
  simp [Leader.from_bytes, leaderWideChar, leaderWideCharRead, leader0,
    Leader.to_bytes, format5, padZeros, natDigits, parse_u16, utf8Valid,
    rustParseNat, parseDigitsBounded, isDigitByte, utf8CharLen,
    utf8FirstContLo, utf8FirstContHi]

/-- C7 amended: the leader round trip holds for every leader value whose
numeric fields fit their Rust integer types (`record_length` and
`base_address_of_data` below 2^16 — automatic for `u16` — and the digit
counts in byte range) and whose character positions are Latin-1 codepoints
(below 256); codepoints at or above 256 are truncated by the `as u8` cast
on emit. -/
theorem claim_C7_leader_roundtrip (l : Leader)
    (hr : l.record_length < 65536) (hb : l.base_address_of_data < 65536)
    (hc : l.CharsInRange) :
    Leader.from_bytes l.to_bytes = .ok l :=
  Leader.from_bytes_to_bytes l hr hb hc

/-- Witness for C7: the round trip on a concrete "nam" leader. -/
theorem claim_C7_witness :
    leader0.record_length < 65536 ∧ leader0.base_address_of_data < 65536 ∧
    leader0.CharsInRange ∧
    Leader.from_bytes leader0.to_bytes = .ok leader0 :=
  ⟨by decide, by decide, by decide,
    claim_C7_leader_roundtrip leader0 (by decide) (by decide) (by decide)⟩

/-- C4 counterexample: a 24-byte leader image with the non-digit byte 65
(letter A) in required digit position 10 is accepted by
`Leader.from_bytes`, contradicting the claim that any non-digit in
positions 10, 11, 20, 21, 22 yields `BadLeader`; the code never validates
those positions (src/src/record.rs lines 47, 48, 53-55 subtract `b'0'`
without a check). -/
theorem claim_C4_counterexample :
    leaderBytesNonDigit10.length = 24 ∧
    leaderBytesNonDigit10.getD 10 0 = 65 ∧
    isDigitByte 65 = false ∧
    (Leader.from_bytes leaderBytesNonDigit10).isOk = true := by
  refine ⟨by decide, by decide, by decide, ?_⟩
  simp [Leader.from_bytes, leaderBytesNonDigit10, parse_u16, utf8Valid,
    rustParseNat, parseDigitsBounded, isDigitByte, Except.isOk, Except.toBool, utf8CharLen,
    utf8FirstContLo, utf8FirstContHi]

/-- C4 amended: `Leader.from_bytes` succeeds exactly when the input is 24
bytes long and positions 0-4 and 12-16 parse as Rust `u16` values (ASCII
digits after an optional leading plus sign, value below 2^16); the digit
positions 10, 11, 20, 21, 22 are never validated — their bytes go through a
wrapping subtraction of 0x30. -/
theorem claim_C4_from_bytes_characterization (data : Bytes) :
    (Leader.from_bytes data).isOk = true ↔
      (data.length = 24 ∧ (parse_u16 (data.take 5)).isOk = true ∧
        (parse_u16 ((data.drop 12).take 5)).isOk = true) := by
  rw [Leader.from_bytes]
  by_cases h24 : data.length = 24
  · rw [if_neg (by omega)]
    cases h1 : parse_u16 (data.take 5) with
    | error e => simp [h1, Except.isOk, Except.toBool, h24]
    | ok v1 =>
      cases h2 : parse_u16 ((data.drop 12).take 5) with
      | error e => simp [h1, h2, Except.isOk, Except.toBool, h24]
      | ok v2 => simp [h1, h2, Except.isOk, Except.toBool, h24]
  · rw [if_pos h24]
    simp [Except.isOk, Except.toBool, h24]

/-- C5 counterexample: the serializer does not raise `BadRecord` for a tag
that is not 3 ASCII characters. The euro-sign tag is a single non-ASCII
character whose UTF-8 encoding is 3 bytes, so the byte-length check passes
and serialization succeeds. (The length/start/total digit-width checks the
claim lists do not exist in the code at all.) -/
theorem claim_C5_counterexample :
    recordEuroTag.control_fields.map ControlField.tag = [[226, 130, 172]] ∧
    ([226, 130, 172] : Bytes).length = 3 ∧
    ¬ (∀ b ∈ ([226, 130, 172] : Bytes), b < 128) ∧
    (write_single_marc21_binary recordEuroTag .utf8).isOk = true := by
  refine ⟨rfl, by decide, by decide, ?_⟩
  simp [write_single_marc21_binary, write_control_fields, write_data_fields,
    build_directory, recordEuroTag, leader0, Except.isOk, Except.toBool,
    convert_from_encoding, Leader.to_bytes, format4, format5, padZeros,
    natDigits]

/-- C5 amended: under UTF-8 the serializer fails exactly on tag byte
length: it succeeds when no remembered directory entry has a tag whose byte
length differs from 3, and returns `InvalidRecord` naming the first
offending tag otherwise. Field lengths, start offsets and the total record
length are not validated. -/
theorem claim_C5_tag_check (r : Record) :
    ((recordEntries r).find? (fun e => decide (e.1.length ≠ 3)) = none →
      (write_single_marc21_binary r .utf8).isOk = true) ∧
    (∀ e, (recordEntries r).find? (fun e => decide (e.1.length ≠ 3)) = some e →
      write_single_marc21_binary r .utf8 = .error (.invalidRecord e.1)) := by
  constructor
  · intro h
    rw [write_single_as_build, build_directory_find_none _ h]
    rfl
  · intro e h
    rw [write_single_as_build, build_directory_find_some _ e h]

/-- Witness for C5: the euro-tag record serializes, and a record with the
2-byte tag "00" is rejected with that tag. -/
theorem claim_C5_witness :
    (write_single_marc21_binary recordEuroTag .utf8).isOk = true ∧
    write_single_marc21_binary recordBadTag .utf8 =
      .error (.invalidRecord [48, 48]) :=
  ⟨(claim_C5_tag_check recordEuroTag).1 (by decide),
   (claim_C5_tag_check recordBadTag).2 ([48, 48], 0, 1) (by decide)⟩

/-- C8 counterexample: a `leader` element whose text is shorter than 24
bytes ("short") does not fail with `BadLeader`; the handler leaves the
record unchanged and succeeds (src/src/parser.rs lines 353-359 only act
when at least 24 bytes are present). -/
theorem claim_C8_counterexample :
    ([115, 104, 111, 114, 116] : Bytes).length < 24 ∧
    xml_leader_end [115, 104, 111, 114, 116] recordCtl = .ok recordCtl :=
  ⟨by decide, rfl⟩

/-- C8 amended: a leader element shorter than 24 bytes is silently ignored
(the record keeps its current leader, no error); one of at least 24 bytes
is truncated to its first 24 bytes before leader construction, so the
handler depends only on that prefix. -/
theorem claim_C8_leader_element (v : Bytes) (r : Record) :
    (v.length < 24 → xml_leader_end v r = .ok r) ∧
    (24 ≤ v.length → xml_leader_end v r = xml_leader_end (v.take 24) r) := by
  constructor
  · intro h
    rw [xml_leader_end, if_neg (by omega)]
  · intro h
    rw [xml_leader_end, xml_leader_end]
    rw [if_pos h, if_pos (by simp [List.length_take]; omega)]
    rw [List.take_take]
    norm_num

/-- Witness for C8: a 1-byte leader element is ignored; a 30-byte leader
element behaves like its 24-byte prefix. -/
theorem claim_C8_witness :
    xml_leader_end [97] recordCtl = .ok recordCtl ∧
    xml_leader_end (List.replicate 30 48) recordCtl =
      xml_leader_end ((List.replicate 30 48).take 24) recordCtl :=
  ⟨(claim_C8_leader_element [97] recordCtl).1 (by decide),
   (claim_C8_leader_element (List.replicate 30 48) recordCtl).2 (by simp)⟩

/-- Profile (first five bytes and total length) of the serializer's output
on a record with a single control field, stated symbolically in the value:
the record length stored in the leader is the total length truncated by the
`as u16` cast. -/
theorem write_one_control_profile (l : Leader) (tag v : Bytes)
    (htag : tag.length = 3) :
    (write_single_marc21_binary ⟨l, [⟨tag, v⟩], []⟩ .utf8).map
        (fun out => (out.take 5, out.length)) =
      .ok (format5 ((34 + (format4 (v.length + 1)).length + v.length) % 65536),
           34 + (format4 (v.length + 1)).length + v.length) := by
  have hent : recordEntries ⟨l, [⟨tag, v⟩], []⟩ = [(tag, 0, v.length + 1)] := by
    simp [recordEntries, controlFieldEntries, controlFieldsBytes,
      dataFieldEntries]
  have htags : ∀ e ∈ recordEntries ⟨l, [⟨tag, v⟩], []⟩, e.1.length = 3 := by
    rw [hent]
    intro e he
    simp only [List.mem_singleton] at he
    subst he
    exact htag
  have hdl : (dirBytes (recordEntries ⟨l, [⟨tag, v⟩], []⟩)).length =
      8 + (format4 (v.length + 1)).length := by
    rw [hent]
    simp only [dirBytes, entryBytes, List.append_nil, List.length_append,
      htag, format5_length 0 (by omega)]
    omega
  have hrbl : (recordBytes ⟨l, [⟨tag, v⟩], []⟩).length = v.length + 1 := by
    simp [recordBytes, controlFieldsBytes, dataFieldsBytes]
  have hrl : (emitLeader ⟨l, [⟨tag, v⟩], []⟩).record_length =
      (34 + (format4 (v.length + 1)).length + v.length) % 65536 := by
    simp only [emitLeader, emitBase, hdl, hrbl]
    omega
  have hlen : (imageOf ⟨l, [⟨tag, v⟩], []⟩).length =
      34 + (format4 (v.length + 1)).length + v.length := by
    rw [imageOf_length, emitBase, hdl, hrbl]
    omega
  have htake : (imageOf ⟨l, [⟨tag, v⟩], []⟩).take 5 =
      format5 ((34 + (format4 (v.length + 1)).length + v.length) % 65536) := by
    rw [imageOf, List.append_assoc]
    rw [List.take_append_of_le_length (by rw [emitLeader_to_bytes_length]; omega)]
    rw [Leader.to_bytes]
    simp only [List.append_assoc]
    rw [List.take_left'
      (format5_length (emitLeader ⟨l, [⟨tag, v⟩], []⟩).record_length
        (by rw [hrl]; omega))]
    rw [hrl]
  rw [write_single_marc21_binary_eq _ htags]
  simp only [Except.map]
  rw [htake, hlen]

/-- C9 counterexample: for a record whose encoded image is 65537 bytes
(one control field with a 65498-byte value), the emitted record length goes
through an `as u16` cast and wraps to 1, so the image's first five bytes
read "00001" while the image's total byte length is 65537. -/
theorem claim_C9_counterexample :
    (write_single_marc21_binary recordHuge .utf8).map
        (fun out => (out.take 5, out.length)) =
      .ok ([48, 48, 48, 48, 49], 65537) ∧
    parse_usize [48, 48, 48, 48, 49] = .ok 1 ∧ (1 : Nat) ≠ 65537 := by
  have hprof := write_one_control_profile leader0 [48, 48, 49]
    (List.replicate 65498 97) rfl
  rw [List.length_replicate] at hprof
  have hf4 : format4 (65498 + 1) = [54, 53, 52, 57, 57] := by
    rw [show (65498 + 1 : Nat) = 65499 from rfl, format4, natDigits_65499,
      padZeros]
    rfl
  rw [hf4] at hprof
  simp only [List.length_cons, List.length_nil, Nat.reduceAdd,
    Nat.reduceMod] at hprof
  have hf5 : format5 1 = [48, 48, 48, 48, 49] := by
    rw [format5, natDigits_lt 1 (by omega), padZeros]
    rfl
  rw [hf5] at hprof
  refine ⟨?_, ?_, by omega⟩
  · have hR : recordHuge =
        ⟨leader0, [⟨[48, 48, 49], List.replicate 65498 97⟩], []⟩ := rfl
    rw [hR]
    exact hprof
  · simp [parse_usize, utf8Valid, rustParseNat, parseDigitsBounded,
      isDigitByte, utf8CharLen, utf8FirstContLo, utf8FirstContHi]

/-- C9 amended: for every record the serializer accepts whose emitted image
is shorter than 65536 bytes, the first five bytes of the image parsed as a
decimal equal the image's total byte length. (For larger images the
`as u16` cast truncates the stored length modulo 2^16.) -/
theorem claim_C9_self_describing_length (r : Record) (out : Bytes)
    (hw : write_single_marc21_binary r .utf8 = .ok out)
    (hlen : out.length < 65536) :
    parse_usize (out.take 5) = .ok out.length := by
  cases hfind : (recordEntries r).find? (fun e => decide (e.1.length ≠ 3)) with
  | some e =>
    rw [write_single_as_build, build_directory_find_some _ e hfind] at hw
    exact absurd hw (by simp)
  | none =>
    have h3 : ∀ e ∈ recordEntries r, e.1.length = 3 := by
      intro e he
      have := List.find?_eq_none.mp hfind e he
      simpa using this
    rw [write_single_marc21_binary_eq r h3] at hw
    simp only [Except.ok.injEq] at hw
    subst hw
    have hL : (imageOf r).length = emitBase r + ((recordBytes r).length + 1) :=
      imageOf_length r
    rw [hL] at hlen
    have hrl : (emitLeader r).record_length =
        (emitBase r + ((recordBytes r).length + 1)) % 65536 := by
      simp only [emitLeader]
    have htake : (imageOf r).take 5 =
        format5 (emitLeader r).record_length := by
      rw [imageOf, List.append_assoc]
      rw [List.take_append_of_le_length
        (by rw [emitLeader_to_bytes_length]; omega)]
      rw [Leader.to_bytes]
      simp only [List.append_assoc]
      rw [List.take_left'
        (format5_length (emitLeader r).record_length (by rw [hrl]; omega))]
    have hmod : (emitLeader r).record_length =
        emitBase r + ((recordBytes r).length + 1) := by
      rw [hrl]
      exact Nat.mod_eq_of_lt hlen
    rw [htake, hmod, hL]
    exact parse_usize_format5 _ (by omega)

/-- Witness for C9: the 25-byte empty-record image is self-describing. -/
theorem claim_C9_witness :
    write_single_marc21_binary recordEmpty .utf8 = .ok emptyImage0 ∧
    emptyImage0.length < 65536 ∧
    parse_usize (emptyImage0.take 5) = .ok emptyImage0.length := by
  have hw : write_single_marc21_binary recordEmpty .utf8 = .ok emptyImage0 := by
    simp [write_single_marc21_binary, write_control_fields, write_data_fields,
      build_directory, recordEmpty, leader0, emptyImage0, Leader.to_bytes,
      format5, padZeros, natDigits]
  exact ⟨hw, by decide,
    claim_C9_self_describing_length recordEmpty emptyImage0 hw (by decide)⟩

end Marc
